import Mathlib

/-!
Verification of the Guarded Edit Engine (`Verification/runner/verification.py`).

The engine is embedded shallowly: template text is a `List Char`, character
offsets are `Nat`, Python floats are modelled as exact rationals (`ℚ`) plus
explicit `inf`/`nan` markers, and every Python function that can raise is
embedded as an `Except`-valued function whose error type mirrors the
`ValueError`/`ZeroDivisionError`/`TypeError` exits of the source.

The provider adapter (`LLMAdapter.complete`) and the JSON decoding of its
response (`_parse_llm_json`) are external to the properties below: the engine
is modelled from the point where the provider's response has been decoded into
a name → code mapping (`patches`), exactly the value `_parse_llm_json`
returns.  "The provider is never invoked" is expressed as the result being the
same error for every possible patch list.
-/

namespace GuardedEdit

/-- Text is a list of characters; offsets are indices into this list. -/
abbrev Text := List Char

/-- Characters matched by `[ \t]` in the marker regexes. -/
def isSpaceTab (c : Char) : Bool := c = ' ' || c = '\t'

/-- Characters matched by `[A-Za-z0-9_]` (regex `\w` over ASCII). -/
def isWordChar (c : Char) : Bool :=
  ('A' ≤ c && c ≤ 'Z') || ('a' ≤ c && c ≤ 'z') || ('0' ≤ c && c ≤ '9') || c = '_'

/-- Characters matched by Python's `\s` (ASCII range) and stripped by `str.strip`. -/
def isPyWs (c : Char) : Bool :=
  c = ' ' || c = '\t' || c = '\n' || c = '\r' || c = '\x0b' || c = '\x0c'

/-- Split text into lines (separated by a newline character), recording the
start offset of each line.  The content of a line excludes its terminating
newline, matching what `^ ... $` delimits under `re.MULTILINE`. -/
def splitLinesAux : Text → Nat → Text → List (Nat × Text)
  | [], s, acc => [(s, acc.reverse)]
  | c :: rest, s, acc =>
    if c = '\n' then (s, acc.reverse) :: splitLinesAux rest (s + acc.length + 1) []
    else splitLinesAux rest s (c :: acc)

/-- All lines of a text with their start offsets. -/
def splitLines (t : Text) : List (Nat × Text) := splitLinesAux t 0 []

/-- The three marker syntaxes recognised by the scanner's regexes. -/
inductive MarkerKind : Type
  | singleM
  | beginM
  | endM
deriving DecidableEq, Repr

/-- Parse the part of a marker line after its keyword: `[ \t]*(\w+)[ \t]*$`
when `requireSep` is false, `[ \t]+(\w+)[ \t]*$` when it is true (the
`BEGIN`/`END` forms require at least one separator). -/
def parseNameTail (r : Text) (requireSep : Bool) : Option String :=
  if requireSep && (r.takeWhile isSpaceTab).isEmpty then none
  else
    let r1 := r.dropWhile isSpaceTab
    let nm := r1.takeWhile isWordChar
    if nm.isEmpty then none
    else if (r1.dropWhile isWordChar).all isSpaceTab then some (String.mk nm)
    else none

/-- Decide whether one whole line matches `SINGLE_LINE_RE`, `BLOCK_BEGIN_RE`
or `BLOCK_END_RE`.  All three regexes are anchored `^ ... $` so a match under
`finditer` is exactly a line whose full content has the given shape. -/
def parseMarkerLine (c : Text) : Option (MarkerKind × String) :=
  let c1 := c.dropWhile isSpaceTab
  if "//".toList.isPrefixOf c1 then
    let c2 := (c1.drop 2).dropWhile isSpaceTab
    if "@LLM_EDIT:".toList.isPrefixOf c2 then
      (parseNameTail (c2.drop 10) false).map (fun n => (MarkerKind.singleM, n))
    else if "@LLM_EDIT BEGIN".toList.isPrefixOf c2 then
      (parseNameTail (c2.drop 15) true).map (fun n => (MarkerKind.beginM, n))
    else if "@LLM_EDIT END".toList.isPrefixOf c2 then
      (parseNameTail (c2.drop 13) true).map (fun n => (MarkerKind.endM, n))
    else none
  else none

/-! ### The single-line look-ahead regex

`_find_regions` matches
`(\s*(?://.*\?\?\?.*|/\*.*\?\?\?.*\*/|//.*|/\*.*\*/|\s)*)` with `re.DOTALL`
against a 600-character window.  Because nothing follows the starred group in
the pattern, Python's backtracking engine commits to the first alternative
that succeeds at each iteration, with each alternative's `.*` taken greedily
(and `.` matching newlines).  The functions below embed each alternative's
consumed length and the iteration loop. -/

/-- Whether `pat` occurs starting exactly at index `i` of `s` (fully inside `s`). -/
def occursAt (pat s : Text) (i : Nat) : Bool := pat.isPrefixOf (s.drop i)

/-- Whether `pat` occurs anywhere in `s` at an index `≥ lo`. -/
def hasOccurGe (pat s : Text) (lo : Nat) : Bool :=
  (List.range (s.length + 1)).any (fun i => decide (lo ≤ i) && occursAt pat s i)

/-- The last index `≥ lo` at which `pat` occurs in `s`, if any (greedy `.*`
backtracks to the rightmost viable occurrence). -/
def lastOccurGe (pat s : Text) (lo : Nat) : Option Nat :=
  ((List.range (s.length + 1)).filter (fun i => decide (lo ≤ i) && occursAt pat s i)).getLast?

/-- Alternative `//.*\?\?\?.*` (DOTALL): requires `//` at the start and `???`
somewhere from index 2 on; the trailing greedy `.*` then reaches the window
end, so the whole remainder is consumed. -/
def matchA1 (s : Text) : Option Nat :=
  if "//".toList.isPrefixOf s && hasOccurGe "???".toList s 2 then some s.length else none

/-- Alternative `/\*.*\?\?\?.*\*/` (DOTALL): requires `/*` at the start, then
greedily the last `???` that still has a `*/` after it, then the last such
`*/`; consumption ends just after that `*/`. -/
def matchA2 (s : Text) : Option Nat :=
  if "/*".toList.isPrefixOf s then
    match ((List.range (s.length + 1)).filter
      (fun q => decide (2 ≤ q) && occursAt "???".toList s q
                && hasOccurGe "*/".toList s (q + 3))).getLast? with
    | none => none
    | some q => (lastOccurGe "*/".toList s (q + 3)).map (· + 2)
  else none

/-- Alternative `//.*` (DOTALL): `//` at the start consumes the whole
remainder of the window. -/
def matchA3 (s : Text) : Option Nat :=
  if "//".toList.isPrefixOf s then some s.length else none

/-- Alternative `/\*.*\*/` (DOTALL): `/*` at the start, consumption up to and
including the last `*/` in the window. -/
def matchA4 (s : Text) : Option Nat :=
  if "/*".toList.isPrefixOf s then (lastOccurGe "*/".toList s 2).map (· + 2) else none

/-- Alternative `\s`: one whitespace character. -/
def matchA5 (s : Text) : Option Nat :=
  match s with
  | c :: _ => if isPyWs c then some 1 else none
  | [] => none

/-- One iteration of the starred group: alternatives are tried in the
pattern's order. -/
def iterConsume (s : Text) : Option Nat :=
  matchA1 s <|> matchA2 s <|> matchA3 s <|> matchA4 s <|> matchA5 s

/-- The starred group's total consumption (fuelled recursion; every
iteration consumes at least one character, so `length + 1` fuel is ample). -/
def replLoop : Nat → Text → Nat
  | 0, _ => 0
  | fuel + 1, s =>
    match iterConsume s with
    | none => 0
    | some k => k + replLoop fuel (s.drop k)

/-- Total length matched by the look-ahead pattern on window `w`: the leading
`\s*` (greedy) followed by the starred group. -/
def replSpan (w : Text) : Nat :=
  let ws := (w.takeWhile isPyWs).length
  ws + replLoop (w.length + 1) (w.drop ws)

/-! ### Regions and the scanner -/

/-- The two region kinds of `EditRegion.kind`. -/
inductive RegionKind : Type
  | single
  | block
deriving DecidableEq, Repr

/-- Mirror of the Python `EditRegion` dataclass. -/
structure EditRegion : Type where
  name : String
  kind : RegionKind
  start_idx : Nat
  end_idx : Nat
  original_text : Text
deriving DecidableEq, Repr

/-- The typed failures of the engine.  The Python code raises `ValueError`
with distinguishing messages (plus uncaught `ValueError`/`ZeroDivisionError`
from `float()` and `/` in `_build_context`); the constructors mirror those
exits. -/
inductive EngineError : Type
  | unmatchedRegion (name : String)
  | duplicateRegionName (name : String)
  | unknownRegionReference (name : String)
  | forbiddenToken (region : String) (token : String)
  | floatConvError
  | zeroDivError
deriving DecidableEq, Repr

/-- All `BLOCK_BEGIN_RE` matches in order: line start, line length, name. -/
def beginEntries (t : Text) : List (Nat × Nat × String) :=
  (splitLines t).filterMap (fun sc =>
    match parseMarkerLine sc.2 with
    | some (MarkerKind.beginM, n) => some (sc.1, sc.2.length, n)
    | _ => none)

/-- Embedding of `BLOCK_END_RE.search(text, pos)`: the first `END` marker line starting at
offset `≥ pos` (its start offset and name).  Marker lines are whole lines, so
candidate match positions are exactly line starts. -/
def findEndAfter (t : Text) (pos : Nat) : Option (Nat × String) :=
  ((splitLines t).filterMap (fun sc =>
    match parseMarkerLine sc.2 with
    | some (MarkerKind.endM, n) => if pos ≤ sc.1 then some (sc.1, n) else none
    | _ => none)).head?

/-- The block-region loop of `_find_regions`: for each `BEGIN`, the first
`END` found after it must carry the same name, else
`Unmatched @LLM_EDIT block` is raised. -/
def blockRegionsAux (t : Text) : List (Nat × Nat × String) → Except EngineError (List EditRegion)
  | [] => Except.ok []
  | (s, len, name) :: rest =>
    let start := s + len
    match findEndAfter t start with
    | none => Except.error (EngineError.unmatchedRegion name)
    | some (endStart, endName) =>
      if endName ≠ name then Except.error (EngineError.unmatchedRegion name)
      else
        match blockRegionsAux t rest with
        | Except.error e => Except.error e
        | Except.ok rs =>
          Except.ok (⟨name, RegionKind.block, start, endStart,
            (t.drop start).take (endStart - start)⟩ :: rs)

/-- The single-line-region loop of `_find_regions`: the span starts at the
end of the marker line and extends by whatever the look-ahead pattern matches
inside the 600-character window. -/
def singleRegions (t : Text) : List EditRegion :=
  (splitLines t).filterMap (fun sc =>
    match parseMarkerLine sc.2 with
    | some (MarkerKind.singleM, name) =>
      let insertPos := sc.1 + sc.2.length
      let window := (t.drop insertPos).take 600
      let spanLen := replSpan window
      some ⟨name, RegionKind.single, insertPos, insertPos + spanLen, window.take spanLen⟩
    | _ => none)

/-- The duplicate-name check (`seen` accumulates names already visited). -/
def checkDup : List EditRegion → List String → Except EngineError Unit
  | [], _ => Except.ok ()
  | r :: rest, seen =>
    if r.name ∈ seen then Except.error (EngineError.duplicateRegionName r.name)
    else checkDup rest (r.name :: seen)

/-- Stable insertion (ascending by `start_idx`), mirroring Python's stable
`sorted(..., key=lambda r: r.start_idx)`. -/
def insertAsc (r : EditRegion) : List EditRegion → List EditRegion
  | [] => [r]
  | x :: xs => if r.start_idx ≤ x.start_idx then r :: x :: xs else x :: insertAsc r xs

/-- Stable ascending sort by `start_idx`. -/
def sortAsc (l : List EditRegion) : List EditRegion := l.foldr insertAsc []

/-- Stable insertion (descending by `start_idx`), mirroring
`sorted(..., key=..., reverse=True)`. -/
def insertDesc (r : EditRegion) : List EditRegion → List EditRegion
  | [] => [r]
  | x :: xs => if x.start_idx ≤ r.start_idx then r :: x :: xs else x :: insertDesc r xs

/-- Stable descending sort by `start_idx`. -/
def sortDesc (l : List EditRegion) : List EditRegion := l.foldr insertDesc []

/-- The regions as accumulated by `_find_regions` before the duplicate check
and final sort: block regions (in `BEGIN` order) then single-line regions
(in marker order). -/
def find_regions_raw (t : Text) : Except EngineError (List EditRegion) :=
  match blockRegionsAux t (beginEntries t) with
  | Except.error e => Except.error e
  | Except.ok blocks => Except.ok (blocks ++ singleRegions t)

/-- Mirror of `GuardedEditEngine._find_regions`. -/
def find_regions (t : Text) : Except EngineError (List EditRegion) :=
  match find_regions_raw t with
  | Except.error e => Except.error e
  | Except.ok rs =>
    match checkDup rs [] with
    | Except.error e => Except.error e
    | Except.ok _ => Except.ok (sortAsc rs)

/-! ### The context builder (`_build_context`)

Python floats are modelled as exact rationals together with explicit
infinity/NaN markers (`FloatLit`); `float(v)` is `pyFloatConv`, returning
`none` exactly when the conversion raises.  Spec values (coming from JSON)
are modelled by `PyVal`: a finite number, a string, or anything else
(`float()` raises `TypeError` on the last). -/

/-- Result of a successful Python `float(...)` conversion. -/
inductive FloatLit : Type
  | fin (q : ℚ)
  | inf
  | neginf
  | nan
deriving DecidableEq, Repr

/-- A JSON-ish spec value as far as `float()` is concerned. -/
inductive PyVal : Type
  | num (q : ℚ)
  | str (s : String)
  | other
deriving DecidableEq, Repr

/-- Numeric value of a run of decimal digits. -/
def digitsVal (ds : Text) : Nat :=
  ds.foldl (fun a c => 10 * a + (c.toNat - '0'.toNat)) 0

/-- Parse the exponent suffix `([eE][+-]?\d+)?` and scale the mantissa. -/
def parseExpTail (base : ℚ) (r : Text) : Option ℚ :=
  match r with
  | [] => some base
  | e :: r1 =>
    if e = 'e' || e = 'E' then
      let (negE, r2) :=
        match r1 with
        | '+' :: r2 => (false, r2)
        | '-' :: r2 => (true, r2)
        | _ => (false, r1)
      let ds := r2.takeWhile Char.isDigit
      if ds.isEmpty || ¬ (r2.dropWhile Char.isDigit).isEmpty then none
      else
        let ex : ℤ := if negE then -(digitsVal ds : ℤ) else (digitsVal ds : ℤ)
        some (base * (10 : ℚ) ^ ex)
    else none

/-- Parse an unsigned decimal literal `\d*(\.\d*)?([eE][+-]?\d+)?` with at
least one digit in the mantissa. -/
def parseDecimal (cs : Text) : Option ℚ :=
  let ip := cs.takeWhile Char.isDigit
  let r1 := cs.dropWhile Char.isDigit
  match r1 with
  | '.' :: r2 =>
    let fp := r2.takeWhile Char.isDigit
    let r3 := r2.dropWhile Char.isDigit
    if ip.isEmpty && fp.isEmpty then none
    else parseExpTail ((digitsVal ip : ℚ) + (digitsVal fp : ℚ) / (10 : ℚ) ^ fp.length) r3
  | _ => if ip.isEmpty then none else parseExpTail (digitsVal ip : ℚ) r1

/-- Python `float(string)`: optional surrounding whitespace, optional sign,
then a decimal literal or `inf`/`infinity`/`nan` (case-insensitive).
Returns `none` when Python raises `ValueError`.  (Digit-group underscores
are not modelled.) -/
def parseFloatLit (s : Text) : Option FloatLit :=
  let cs := ((s.dropWhile isPyWs).reverse.dropWhile isPyWs).reverse
  let (neg, cs1) :=
    match cs with
    | '+' :: r => (false, r)
    | '-' :: r => (true, r)
    | _ => (false, cs)
  let low := cs1.map Char.toLower
  if low = "inf".toList || low = "infinity".toList then
    some (if neg then FloatLit.neginf else FloatLit.inf)
  else if low = "nan".toList then some FloatLit.nan
  else
    (parseDecimal cs1).map (fun q => FloatLit.fin (if neg then -q else q))

/-- Python `float(v)` on a spec value. -/
def pyFloatConv : PyVal → Option FloatLit
  | PyVal.num q => some (FloatLit.fin q)
  | PyVal.str s => parseFloatLit s.toList
  | PyVal.other => none

/-- The `sim` sub-object of a spec (`spec.get("sim", {}) or {}`); a missing
or falsy value is modelled as `none`. -/
structure SimCfg : Type where
  clock_mhz : Option PyVal
  num_transactions : Option PyVal
deriving DecidableEq, Repr

/-- The input specification object, with the fields `_build_context` reads.
`data_width` is used arithmetically by the code and is typed as an integer
here; a missing/falsy `timing` sub-object is `none`. -/
structure SpecInput : Type where
  controller_type : Option PyVal
  protocol : Option PyVal
  data_width : Option Int
  addr_width : Option PyVal
  endian : Option PyVal
  features : List (String × PyVal)
  address_map : List PyVal
  sim : Option SimCfg
  timing : Option (List (String × PyVal))
deriving DecidableEq, Repr

/-- The derived context object handed to the provider. -/
structure CtxObject : Type where
  controller_type : Option PyVal
  protocol : Option PyVal
  data_width : Option Int
  addr_width : Option PyVal
  endian : Option PyVal
  features : List (String × PyVal)
  address_map : List PyVal
  sim : Option SimCfg
  timing_ns : List (String × PyVal)
  clk_ns : FloatLit
  timing_cycles : List (String × Int)
  num_transactions : PyVal
  byte_enable_width : Int
deriving DecidableEq, Repr

/-- Python `str.replace`: replace every (non-overlapping, left-to-right)
occurrence of `pat` (fuelled structural recursion; each step consumes at
least one character). -/
def strReplaceAux (pat rep : Text) : Nat → Text → Text
  | 0, s => s
  | _, [] => []
  | fuel + 1, c :: cs =>
    if ¬ pat.isEmpty && pat.isPrefixOf (c :: cs) then
      rep ++ strReplaceAux pat rep fuel ((c :: cs).drop pat.length)
    else c :: strReplaceAux pat rep fuel cs

/-- Python `k.replace("_ns", "_cycles")` on a timing key. -/
def cycKey (k : String) : String :=
  String.mk (strReplaceAux "_ns".toList "_cycles".toList k.toList.length k.toList)

/-- Python `dict` insertion: an existing key keeps its position and gets the
new value, a new key is appended. -/
def dictInsert (d : List (String × Int)) (k : String) (v : Int) : List (String × Int) :=
  if d.any (fun p => p.1 = k) then d.map (fun p => if p.1 = k then (k, v) else p)
  else d ++ [(k, v)]

/-- One step of the timing-conversion loop.  Every failure inside the loop
body (`float(v)` raising, division by a zero clock, `math.ceil` of an
infinite or NaN quotient) is caught by the `except: continue`, so the entry
is skipped; a finite value with a finite nonzero clock contributes
`int(math.ceil(ns / clk_ns))`. -/
def timingStep (clk : FloatLit) (d : List (String × Int)) (kv : String × PyVal) :
    List (String × Int) :=
  match pyFloatConv kv.2, clk with
  | some (FloatLit.fin ns), FloatLit.fin c =>
    if c = 0 then d else dictInsert d (cycKey kv.1) ⌈ns / c⌉
  | _, _ => d

/-- The `timing_cycles` dictionary. -/
def timingCyclesOf (clk : FloatLit) (entries : List (String × PyVal)) : List (String × Int) :=
  entries.foldl (timingStep clk) []

/-- The `sim.clock_mhz` value, if the `sim` object and the key are present. -/
def simClockMhz (spec : SpecInput) : Option PyVal :=
  match spec.sim with
  | some sm => sm.clock_mhz
  | none => none

/-- Derivation of `ctx["clk_ns"]`: the explicit `clk_ns` argument if given,
else `1000.0 / float(sim.get("clock_mhz", 100))`.  `float()` raising is
`floatConvError`; a zero frequency raises `ZeroDivisionError`; division of
`1000.0` by an infinite frequency gives `0.0` and by NaN gives NaN. -/
def clk_of (spec : SpecInput) (clk_ns : Option ℚ) : Except EngineError FloatLit :=
  match clk_ns with
  | some c => Except.ok (FloatLit.fin c)
  | none =>
    match simClockMhz spec with
    | none => Except.ok (FloatLit.fin (1000 / 100))
    | some v =>
      match pyFloatConv v with
      | none => Except.error EngineError.floatConvError
      | some (FloatLit.fin m) =>
        if m = 0 then Except.error EngineError.zeroDivError
        else Except.ok (FloatLit.fin (1000 / m))
      | some FloatLit.inf => Except.ok (FloatLit.fin 0)
      | some FloatLit.neginf => Except.ok (FloatLit.fin 0)
      | some FloatLit.nan => Except.ok FloatLit.nan

/-- Mirror of `GuardedEditEngine._build_context`. -/
def build_context (spec : SpecInput) (clk_ns : Option ℚ) : Except EngineError CtxObject :=
  let timing := spec.timing.getD []
  match clk_of spec clk_ns with
  | Except.error e => Except.error e
  | Except.ok clk =>
    let dwOr8 : Int :=
      match spec.data_width with
      | some d => if d = 0 then 8 else d
      | none => 8
    Except.ok
      { controller_type := spec.controller_type
        protocol := spec.protocol
        data_width := spec.data_width
        addr_width := spec.addr_width
        endian := spec.endian
        features := spec.features
        address_map := spec.address_map
        sim := spec.sim
        timing_ns := timing
        clk_ns := clk
        timing_cycles := timingCyclesOf clk timing
        num_transactions :=
          (match spec.sim with
           | some sm => sm.num_transactions.getD (PyVal.num 200)
           | none => PyVal.num 200)
        byte_enable_width := max 1 (Int.fdiv dwOr8 8) }

/-! ### Patch validation and application -/

/-- Python `lstrip`+`rstrip` over `\s` (i.e. `str.strip()`). -/
def pyStrip (cs : Text) : Text :=
  ((cs.dropWhile isPyWs).reverse.dropWhile isPyWs).reverse

/-- Python `str.rstrip()`. -/
def pyRstrip (cs : Text) : Text := (cs.reverse.dropWhile isPyWs).reverse

/-- Match the tail of the fence regex after a language tag: the remainder
must be `\s*(.*)``` ` reaching the end of the (already stripped) string,
which holds exactly when it ends in three backticks; the group-1 content is
everything before them (the greedy `\s*` only removes whitespace that the
subsequent `.strip()` removes anyway). -/
def fenceTail (r : Text) : Option Text :=
  if 3 ≤ r.length && "```".toList.isSuffixOf r then some (r.take (r.length - 3)) else none

/-- Mirror of `GuardedEditEngine._normalize_code`: strip, then strip an outer
` ```sv … ``` ` / ` ```systemverilog … ``` ` / ` ``` … ``` ` fence if the
whole string is one (the regex tries the language tags in that order). -/
def normalize_code (code : Text) : Text :=
  let c := pyStrip code
  if "```".toList.isPrefixOf c then
    let after := c.drop 3
    let inner? :=
      (if "sv".toList.isPrefixOf after then fenceTail (after.drop 2) else none) <|>
      (if "systemverilog".toList.isPrefixOf after then fenceTail (after.drop 13) else none) <|>
      fenceTail after
    match inner? with
    | some inner => pyStrip inner
    | none => c
  else c

/-- Substring test (Python `token in code`). -/
def containsSub (hay pat : Text) : Bool :=
  (List.range (hay.length + 1)).any (fun i => pat.isPrefixOf (hay.drop i))

/-- The fixed denylist scanned by `_validate_patches`. -/
def forbidden_tokens : List String := ["$fopen", "$fread", "$system", "import \"DPI-C\"", "`include"]

/-- First denylisted token occurring in a patch's code, if any. -/
def findForbidden (code : String) : Option String :=
  forbidden_tokens.find? (fun tok => containsSub code.toList tok.toList)

/-- The unknown-region loop of `_validate_patches`. -/
def checkNames (regionNames : List String) : List (String × String) → Except EngineError Unit
  | [] => Except.ok ()
  | (n, _) :: rest =>
    if n ∈ regionNames then checkNames regionNames rest
    else Except.error (EngineError.unknownRegionReference n)

/-- The forbidden-token loop of `_validate_patches`. -/
def checkForbidden : List (String × String) → Except EngineError Unit
  | [] => Except.ok ()
  | (n, c) :: rest =>
    match findForbidden c with
    | some tok => Except.error (EngineError.forbiddenToken n tok)
    | none => checkForbidden rest

/-- Mirror of `GuardedEditEngine._validate_patches`.  (The "require all regions be
filled" check is commented out in the source — partial filling is allowed.) -/
def validate_patches (regions : List EditRegion) (patches : List (String × String)) :
    Except EngineError Unit :=
  match checkNames (regions.map (fun r => r.name)) patches with
  | Except.error e => Except.error e
  | Except.ok _ => checkForbidden patches

/-- Dictionary lookup `patches.get(name, ...)`; patch names are unique
(`_parse_llm_json` builds a `dict`), so first-match lookup agrees. -/
def pyLookup (patches : List (String × String)) (name : String) : Option String :=
  (patches.find? (fun p => p.1 = name)).map (fun p => p.2)

/-- One edit of `_apply_patches`:
`out[:start] + "\n" + normalized.rstrip() + "\n" + out[end:]`. -/
def applyOne (patches : List (String × String)) (out : Text) (r : EditRegion) : Text :=
  let code := (pyLookup patches r.name).getD ""
  let repl := normalize_code code.toList
  out.take r.start_idx ++ ('\n' :: (pyRstrip repl ++ '\n' :: out.drop r.end_idx))

/-- Mirror of `GuardedEditEngine._apply_patches`: apply in descending `start_idx`
order so earlier offsets stay valid. -/
def apply_patches (text : Text) (regions : List EditRegion) (patches : List (String × String)) :
    Text :=
  (sortDesc regions).foldl (applyOne patches) text

/-- Mirror of `GuardedEditEngine.apply_llm_edits`, from the point where the provider's
response has been decoded into `patches`: scan, early-return on a
marker-free template, build the context (the prompt built from it is
irrelevant to the result), validate, apply. -/
def apply_llm_edits (template : Text) (spec : SpecInput) (clk_ns : Option ℚ)
    (patches : List (String × String)) : Except EngineError Text :=
  match find_regions template with
  | Except.error e => Except.error e
  | Except.ok regions =>
    if regions.isEmpty then Except.ok template
    else
      match build_context spec clk_ns with
      | Except.error e => Except.error e
      | Except.ok _ctx =>
        match validate_patches regions patches with
        | Except.error e => Except.error e
        | Except.ok _ => Except.ok (apply_patches template regions patches)

/-! ### Specification-side definitions

`mergeFrom` renders the spec's description of a correct merge: the text is
split at the (ascending, disjoint) region spans; the gaps are literal slices
of the original text and each span is replaced by its patch piece.  The
frame theorems below relate `apply_patches` to this form. -/

/-- The text a region's span is replaced by. -/
def pieceFor (patches : List (String × String)) (r : EditRegion) : Text :=
  '\n' :: (pyRstrip (normalize_code (((pyLookup patches r.name).getD "").toList)) ++ ['\n'])

/-- Merge along ascending disjoint regions: the slice `[pos, r.start)` of
the original text, then `r`'s piece, then the rest from `r.end_idx`. -/
def mergeFrom (text : Text) (patches : List (String × String)) : Nat → List EditRegion → Text
  | pos, [] => text.drop pos
  | pos, r :: rs =>
    (text.drop pos).take (r.start_idx - pos) ++ pieceFor patches r ++
      mergeFrom text patches r.end_idx rs

/-- A skeleton spec with no interesting fields (used by witnesses). -/
def spec0 : SpecInput :=
  { controller_type := none, protocol := none, data_width := none, addr_width := none,
    endian := none, features := [], address_map := [], sim := none, timing := none }

/-! ### Concrete templates used by counterexamples and witnesses -/

/-- One block region whose original body is `foo`. -/
def tplC1 : Text := "// @LLM_EDIT BEGIN A\nfoo\n// @LLM_EDIT END A".toList

/-- Output of the engine on `tplC1` with an empty patch set. -/
def outC1 : Text := "// @LLM_EDIT BEGIN A\n\n// @LLM_EDIT END A".toList

/-- A single-line marker inside a block region, followed by blank lines and a
non-comment line; its look-ahead span overlaps the block span. -/
def tplC2x : Text :=
  "// @LLM_EDIT BEGIN A\n// @LLM_EDIT: T\n\n\n\nxx\n// @LLM_EDIT END A\ntail".toList

/-- Output of the engine on `tplC2x` with an empty patch set. -/
def outC2x : Text := "// @LLM_EDIT BEGIN A\n\n @LLM_EDIT END A\ntail".toList

/-- Template of the spec's single-line look-ahead rule, with a plain comment
followed by a code line after the marker. -/
def tplC3 : Text := "// @LLM_EDIT: T\n// note\nassign x = 1;".toList

/-- The spec's concrete scenario template. -/
def tplC4 : Text := "// @LLM_EDIT: T\n// ???\nEND".toList

/-- What the engine actually produces on the spec's concrete scenario. -/
def outC4 : Text := "// @LLM_EDIT: T\nint x = 1;\n".toList

/-- A single-line marker inside a block region (overlapping spans). -/
def tplC5x : Text := "// @LLM_EDIT BEGIN A\n// @LLM_EDIT: T\nzz\n// @LLM_EDIT END A".toList

/-- Two `BEGIN` markers (`W` first, then `X`), no `END` markers at all. -/
def tplC8x : Text := "// @LLM_EDIT BEGIN W\n// @LLM_EDIT BEGIN X".toList

/-- A lone `BEGIN X` with no `END`. -/
def tplC8w : Text := "// @LLM_EDIT BEGIN X\nfoo".toList

/-- Two single-line markers with the same name. -/
def tplC7w : Text := "// @LLM_EDIT: A\nxx\n// @LLM_EDIT: A".toList

/-- Two disjoint block regions `A` (body `old`) and `B` (body `keep`). -/
def tplW2 : Text :=
  "// @LLM_EDIT BEGIN A\nold\n// @LLM_EDIT END A\n// @LLM_EDIT BEGIN B\nkeep\n// @LLM_EDIT END B".toList

/-- The regions the scanner finds in `tplW2`. -/
def rsW2 : List EditRegion :=
  [⟨"A", RegionKind.block, 20, 25, "\nold\n".toList⟩,
   ⟨"B", RegionKind.block, 64, 70, "\nkeep\n".toList⟩]

/-- Spec with one timing entry of 6.1 ns. -/
def specW9 : SpecInput := { spec0 with timing := some [("t_aa_ns", PyVal.num (61/10))] }

/-- Spec whose `sim.clock_mhz` does not convert to a number. -/
def specW10 : SpecInput := { spec0 with sim := some ⟨some (PyVal.str "fast"), none⟩ }

/-- The region list scanned from `tplC1`. -/
def rsC1 : List EditRegion := [⟨"A", RegionKind.block, 20, 25, "\nfoo\n".toList⟩]

/-- The context object built from `spec0` with no clock override. -/
def ctx0 : CtxObject :=
  { controller_type := none, protocol := none, data_width := none, addr_width := none,
    endian := none, features := [], address_map := [], sim := none, timing_ns := [],
    clk_ns := FloatLit.fin (1000 / 100), timing_cycles := [],
    num_transactions := PyVal.num 200, byte_enable_width := max 1 (Int.fdiv 8 8) }

/-- A patch whose code contains the forbidden token `$fopen`. -/
def patchesC6 : List (String × String) := [("A", "x = $fopen(f);")]

/-- The converted keys of the timing entries that contribute a cycle count
(those whose value converts to a finite float). -/
def convKeys (entries : List (String × PyVal)) : List String :=
  entries.filterMap (fun kv =>
    match pyFloatConv kv.2 with
    | some (FloatLit.fin _) => some (cycKey kv.1)
    | _ => none)

/-- The context object built from `specW9` with a 2 ns clock override. -/
def ctxW9 : CtxObject :=
  { controller_type := none, protocol := none, data_width := none, addr_width := none,
    endian := none, features := [], address_map := [], sim := none,
    timing_ns := [("t_aa_ns", PyVal.num (61 / 10))], clk_ns := FloatLit.fin 2,
    timing_cycles := timingCyclesOf (FloatLit.fin 2) [("t_aa_ns", PyVal.num (61 / 10))],
    num_transactions := PyVal.num 200, byte_enable_width := max 1 (Int.fdiv 8 8) }

/-- Output of the engine on `tplW2` with only region `A` patched. -/
def outW2 : Text :=
  "// @LLM_EDIT BEGIN A\nnew\n// @LLM_EDIT END A\n// @LLM_EDIT BEGIN B\n\n// @LLM_EDIT END B".toList

end GuardedEdit

namespace GuardedEdit

/-! ## Helper lemmas -/

/-- A patch list whose names are all known passes the unknown-region loop. -/
theorem checkNames_ok (names : List String) :
    ∀ patches : List (String × String), (∀ p ∈ patches, p.1 ∈ names) →
      checkNames names patches = Except.ok ()
  | [], _ => rfl
  | (n, c) :: rest, h => by
    have hn : n ∈ names := h (n, c) (List.mem_cons_self _ _)
    simp only [checkNames, if_pos hn]
    exact checkNames_ok names rest (fun p hp => h p (List.mem_cons_of_mem _ hp))

/-- If some patch contains a denylisted token, the forbidden-token loop
fails with a `forbiddenToken` error naming an offending patch and token. -/
theorem checkForbidden_err :
    ∀ patches : List (String × String),
      (∃ p ∈ patches, ∃ tok ∈ forbidden_tokens, containsSub p.2.toList tok.toList = true) →
      ∃ n tok, checkForbidden patches = Except.error (EngineError.forbiddenToken n tok) ∧
        ∃ c, (n, c) ∈ patches ∧ tok ∈ forbidden_tokens ∧ containsSub c.toList tok.toList = true
  | [], h => absurd h (by simp)
  | (n0, c0) :: rest, h => by
    cases hf : findForbidden c0 with
    | some tok =>
      have hf' : forbidden_tokens.find? (fun tok => containsSub c0.toList tok.toList) = some tok := hf
      refine ⟨n0, tok, by simp only [checkForbidden, hf], c0, List.mem_cons_self _ _, ?_, ?_⟩
      · exact List.mem_of_find?_eq_some hf'
      · have hp := List.find?_some hf'
        exact hp
    | none =>
      have hrest : ∃ p ∈ rest, ∃ tok ∈ forbidden_tokens,
          containsSub p.2.toList tok.toList = true := by
        rcases h with ⟨p, hp, tok, htok, hsub⟩
        rcases List.mem_cons.mp hp with hhead | htail
        · exfalso
          have := List.find?_eq_none.mp hf tok htok
          rw [hhead] at hsub
          exact this hsub
        · exact ⟨p, htail, tok, htok, hsub⟩
      rcases checkForbidden_err rest hrest with ⟨n, tok, herr, c, hc, htok, hsub⟩
      exact ⟨n, tok, by simp only [checkForbidden, hf]; exact herr,
        c, List.mem_cons_of_mem _ hc, htok, hsub⟩

/-- If the accumulated names contain a repetition (or hit the `seen` set),
the duplicate check errors with a duplicated name. -/
theorem checkDup_err :
    ∀ (rs : List EditRegion) (seen : List String),
      (¬ (rs.map (fun r => r.name)).Nodup ∨
        ∃ n ∈ rs.map (fun r => r.name), n ∈ seen) →
      ∃ n, checkDup rs seen = Except.error (EngineError.duplicateRegionName n) ∧
        (1 < (rs.map (fun r => r.name)).count n ∨
          (n ∈ seen ∧ n ∈ rs.map (fun r => r.name)))
  | [], seen, h => by
    rcases h with h | ⟨n, hn, _⟩
    · simp at h
    · simp at hn
  | r :: rest, seen, h => by
    by_cases hs : r.name ∈ seen
    · refine ⟨r.name, by simp only [checkDup, if_pos hs], Or.inr ⟨hs, by simp⟩⟩
    · have hnext : ¬ (rest.map (fun r => r.name)).Nodup ∨
          ∃ n ∈ rest.map (fun r => r.name), n ∈ r.name :: seen := by
        rcases h with hnd | ⟨n, hn, hnseen⟩
        · rw [List.map_cons, List.nodup_cons] at hnd
          push_neg at hnd
          by_cases hmem : r.name ∈ rest.map (fun r => r.name)
          · exact Or.inr ⟨r.name, hmem, List.mem_cons_self _ _⟩
          · exact Or.inl (hnd hmem)
        · rcases List.mem_cons.mp hn with rfl | htail
          · exact absurd hnseen hs
          · exact Or.inr ⟨n, htail, List.mem_cons_of_mem _ hnseen⟩
      rcases checkDup_err rest (r.name :: seen) hnext with ⟨n, herr, hcase⟩
      refine ⟨n, by simp only [checkDup, if_neg hs]; exact herr, ?_⟩
      rcases hcase with hcount | ⟨hseen', hmem'⟩
      · left
        simp only [List.map_cons, List.count_cons]
        omega
      · rcases List.mem_cons.mp hseen' with heq | hseen
        · left
          have hpos : 0 < (rest.map (fun r => r.name)).count n := List.count_pos_iff.mpr hmem'
          rw [List.map_cons, List.count_cons, if_pos (by simp [heq])]
          omega
        · exact Or.inr ⟨hseen, List.mem_cons_of_mem _ hmem'⟩

/-- A successful `findEndAfter` comes from an `END` marker line at or after
`pos`. -/
theorem findEndAfter_some {t : Text} {pos es : Nat} {en : String}
    (h : findEndAfter t pos = some (es, en)) :
    ∃ c, (es, c) ∈ splitLines t ∧ parseMarkerLine c = some (MarkerKind.endM, en) ∧ pos ≤ es := by
  unfold findEndAfter at h
  rcases hh : ((splitLines t).filterMap (fun sc =>
      match parseMarkerLine sc.2 with
      | some (MarkerKind.endM, n) => if pos ≤ sc.1 then some (sc.1, n) else none
      | _ => none)) with _ | ⟨x, xs⟩
  · rw [hh] at h; simp at h
  · rw [hh] at h
    simp only [List.head?] at h
    have hx : x ∈ (splitLines t).filterMap (fun sc =>
        match parseMarkerLine sc.2 with
        | some (MarkerKind.endM, n) => if pos ≤ sc.1 then some (sc.1, n) else none
        | _ => none) := by
      rw [hh]; exact List.mem_cons_self _ _
    rcases List.mem_filterMap.mp hx with ⟨sc, hsc, hmatch⟩
    cases h
    rcases hp : parseMarkerLine sc.2 with _ | ⟨k, n⟩
    · rw [hp] at hmatch; simp at hmatch
    · cases k
      case singleM => rw [hp] at hmatch; simp at hmatch
      case beginM => rw [hp] at hmatch; simp at hmatch
      case endM =>
        rw [hp] at hmatch
        simp only at hmatch
        by_cases hle : pos ≤ sc.1
        · rw [if_pos hle] at hmatch
          cases hmatch
          exact ⟨sc.2, by simpa using hsc, hp, hle⟩
        · rw [if_neg hle] at hmatch; simp at hmatch

/-- If some entry in the `BEGIN` list has a name with no `END` marker
anywhere in the text, the block-region loop fails with an
`unmatchedRegion` error naming one of the listed `BEGIN` markers. -/
theorem blockRegionsAux_err (t : Text) (X : String)
    (hnoend : ∀ sc ∈ splitLines t, parseMarkerLine sc.2 ≠ some (MarkerKind.endM, X)) :
    ∀ entries : List (Nat × Nat × String), (∃ s l, (s, l, X) ∈ entries) →
      ∃ n, blockRegionsAux t entries = Except.error (EngineError.unmatchedRegion n) ∧
        ∃ s l, (s, l, n) ∈ entries
  | [], h => by simp at h
  | (s0, l0, n0) :: rest, h => by
    cases hfind : findEndAfter t (s0 + l0) with
    | none =>
      exact ⟨n0, by simp only [blockRegionsAux, hfind], s0, l0, List.mem_cons_self _ _⟩
    | some se =>
      rcases se with ⟨es, en⟩
      by_cases hname : en = n0
      · subst hname
        have hXrest : ∃ s l, (s, l, X) ∈ rest := by
          rcases h with ⟨s, l, hmem⟩
          rcases List.mem_cons.mp hmem with heq | htail
          · exfalso
            rcases findEndAfter_some hfind with ⟨c, hc, hpc, _⟩
            cases heq
            exact hnoend (es, c) hc hpc
          · exact ⟨s, l, htail⟩
        rcases blockRegionsAux_err t X hnoend rest hXrest with ⟨n, herr, s, l, hmem⟩
        refine ⟨n, ?_, s, l, List.mem_cons_of_mem _ hmem⟩
        simp only [blockRegionsAux, hfind, ne_eq, not_true_eq_false, if_false, ite_false,
          if_neg (by simp : ¬ (en ≠ en))] at *
        rw [herr]
      · refine ⟨n0, ?_, s0, l0, List.mem_cons_self _ _⟩
        simp only [blockRegionsAux, hfind, if_pos hname]

/-- A prefix is no longer than the list it prefixes. -/
theorem isPrefixOf_length_le :
    ∀ {l1 l2 : Text}, l1.isPrefixOf l2 = true → l1.length ≤ l2.length
  | [], _, _ => Nat.zero_le _
  | a :: as, [], h => by simp [List.isPrefixOf] at h
  | a :: as, b :: bs, h => by
    simp only [List.isPrefixOf, Bool.and_eq_true] at h
    simpa using isPrefixOf_length_le h.2

/-- Every line recorded by `splitLinesAux` ends within the enclosing text. -/
theorem splitLinesAux_le :
    ∀ (l : Text) (s : Nat) (acc : Text),
      ∀ p ∈ splitLinesAux l s acc, p.1 + p.2.length ≤ s + acc.length + l.length := by
  intro l
  induction l with
  | nil =>
    intro s acc p hp
    simp only [splitLinesAux, List.mem_singleton] at hp
    subst hp
    simp
  | cons c rest ih =>
    intro s acc p hp
    rw [splitLinesAux] at hp
    by_cases hc : c = '\n'
    · rw [if_pos hc] at hp
      rcases List.mem_cons.mp hp with rfl | hp
      · simp only [List.length_reverse, List.length_cons]
        omega
      · have := ih (s + acc.length + 1) [] p hp
        simp only [List.length_nil, List.length_cons] at *
        omega
    · rw [if_neg hc] at hp
      have := ih s (c :: acc) p hp
      simp only [List.length_cons] at *
      omega

/-- Every line of a text ends within it. -/
theorem splitLines_le (t : Text) : ∀ p ∈ splitLines t, p.1 + p.2.length ≤ t.length := by
  intro p hp
  simpa using splitLinesAux_le t 0 [] p hp

/-- A `getLast?` result is a member. -/
theorem mem_of_getLast?_eq_some {α : Type} {l : List α} {a : α}
    (h : l.getLast? = some a) : a ∈ l := by
  rcases l with _ | ⟨x, xs⟩
  · cases h
  · rw [List.getLast?_eq_getLast (x :: xs) (by simp)] at h
    cases h
    exact List.getLast_mem _

/-- A successful `lastOccurGe` is an occurrence position at least `lo`. -/
theorem lastOccurGe_some {pat s : Text} {lo r : Nat}
    (h : lastOccurGe pat s lo = some r) : lo ≤ r ∧ occursAt pat s r = true := by
  have hmem : r ∈ (List.range (s.length + 1)).filter
      (fun i => decide (lo ≤ i) && occursAt pat s i) := by
    unfold lastOccurGe at h
    exact mem_of_getLast?_eq_some h
  have := (List.mem_filter.mp hmem).2
  simp only [Bool.and_eq_true, decide_eq_true_eq] at this
  exact this

/-- An occurrence ends inside the string. -/
theorem occursAt_add_le {pat s : Text} {r : Nat} (h : occursAt pat s r = true) :
    r + pat.length ≤ s.length ∨ pat.length = 0 := by
  rcases Nat.eq_zero_or_pos pat.length with h0 | hpos
  · exact Or.inr h0
  · left
    have := isPrefixOf_length_le h
    simp only [List.length_drop] at this
    by_cases hr : r ≤ s.length
    · omega
    · exfalso
      have : s.length - r = 0 := by omega
      omega

/-- Consumption bound for the first alternative. -/
theorem matchA1_le {s : Text} {k : Nat} (h : matchA1 s = some k) : k ≤ s.length := by
  unfold matchA1 at h
  split at h
  · cases h
    exact Nat.le_refl _
  · cases h

/-- Consumption bound for the second alternative. -/
theorem matchA2_le {s : Text} {k : Nat} (h : matchA2 s = some k) : k ≤ s.length := by
  unfold matchA2 at h
  split at h
  · split at h
    · cases h
    · rename_i q _
      rcases hlast : lastOccurGe "*/".toList s (q + 3) with _ | r
      · rw [hlast] at h; cases h
      · rw [hlast] at h
        simp only [Option.map_some', Option.some.injEq] at h
        subst h
        rcases lastOccurGe_some hlast with ⟨_, hocc⟩
        rcases occursAt_add_le hocc with hle | h0
        · simpa using hle
        · simp at h0
  · cases h

/-- Consumption bound for the third alternative. -/
theorem matchA3_le {s : Text} {k : Nat} (h : matchA3 s = some k) : k ≤ s.length := by
  unfold matchA3 at h
  split at h
  · cases h
    exact Nat.le_refl _
  · cases h

/-- Consumption bound for the fourth alternative. -/
theorem matchA4_le {s : Text} {k : Nat} (h : matchA4 s = some k) : k ≤ s.length := by
  unfold matchA4 at h
  split at h
  · rcases hlast : lastOccurGe "*/".toList s 2 with _ | r
    · rw [hlast] at h; cases h
    · rw [hlast] at h
      simp only [Option.map_some', Option.some.injEq] at h
      subst h
      rcases lastOccurGe_some hlast with ⟨_, hocc⟩
      rcases occursAt_add_le hocc with hle | h0
      · simpa using hle
      · simp at h0
  · cases h

/-- Consumption bound for the fifth alternative. -/
theorem matchA5_le {s : Text} {k : Nat} (h : matchA5 s = some k) : k ≤ s.length := by
  rcases s with _ | ⟨c, s'⟩
  · simp [matchA5] at h
  · simp only [matchA5] at h
    by_cases hc : isPyWs c = true
    · rw [if_pos hc] at h
      cases h
      simp
    · rw [if_neg hc] at h
      cases h

/-- One iteration of the look-ahead loop never consumes past the window. -/
theorem iterConsume_le {s : Text} {k : Nat} (h : iterConsume s = some k) : k ≤ s.length := by
  unfold iterConsume at h
  rcases h1 : matchA1 s with _ | k1
  all_goals rw [h1] at h
  case some =>
    rw [Option.some_orElse] at h
    cases h
    exact matchA1_le h1
  rw [Option.none_orElse] at h
  rcases h2 : matchA2 s with _ | k2
  all_goals rw [h2] at h
  case some =>
    rw [Option.some_orElse] at h
    cases h
    exact matchA2_le h2
  rw [Option.none_orElse] at h
  rcases h3 : matchA3 s with _ | k3
  all_goals rw [h3] at h
  case some =>
    rw [Option.some_orElse] at h
    cases h
    exact matchA3_le h3
  rw [Option.none_orElse] at h
  rcases h4 : matchA4 s with _ | k4
  all_goals rw [h4] at h
  case some =>
    rw [Option.some_orElse] at h
    cases h
    exact matchA4_le h4
  rw [Option.none_orElse] at h
  exact matchA5_le h

/-- The look-ahead loop never consumes past the window. -/
theorem replLoop_le : ∀ (fuel : Nat) (s : Text), replLoop fuel s ≤ s.length := by
  intro fuel
  induction fuel with
  | zero => intro s; simp [replLoop]
  | succ f ih =>
    intro s
    rcases hit : iterConsume s with _ | k
    · simp [replLoop, hit]
    · have hk := iterConsume_le hit
      have hrec := ih (s.drop k)
      simp only [List.length_drop] at hrec
      simp only [replLoop, hit]
      omega

/-- The whole look-ahead match fits in the window. -/
theorem replSpan_le (w : Text) : replSpan w ≤ w.length := by
  show (w.takeWhile isPyWs).length +
      replLoop (w.length + 1) (w.drop (w.takeWhile isPyWs).length) ≤ w.length
  have hws : (w.takeWhile isPyWs).length ≤ w.length :=
    (List.takeWhile_sublist _).length_le
  have hloop := replLoop_le (w.length + 1) (w.drop (w.takeWhile isPyWs).length)
  simp only [List.length_drop] at hloop
  omega

/-- Membership in an ascending insertion. -/
theorem mem_insertAsc {a r : EditRegion} :
    ∀ {l : List EditRegion}, a ∈ insertAsc r l ↔ a = r ∨ a ∈ l
  | [] => by simp [insertAsc]
  | x :: xs => by
    unfold insertAsc
    split
    · simp [List.mem_cons]
    · simp only [List.mem_cons, mem_insertAsc (l := xs)]
      tauto

/-- Membership is preserved by the ascending sort. -/
theorem mem_sortAsc {a : EditRegion} :
    ∀ {l : List EditRegion}, a ∈ sortAsc l ↔ a ∈ l
  | [] => Iff.rfl
  | x :: xs => by
    simp only [sortAsc, List.foldr_cons]
    rw [show List.foldr insertAsc [] xs = sortAsc xs from rfl]
    rw [mem_insertAsc, mem_sortAsc (l := xs), List.mem_cons]

/-- Inserting preserves ascending sortedness. -/
theorem chain'_insertAsc (r : EditRegion) :
    ∀ (l : List EditRegion),
      List.Chain' (fun a b => a.start_idx ≤ b.start_idx) l →
      List.Chain' (fun a b => a.start_idx ≤ b.start_idx) (insertAsc r l)
  | [], _ => List.chain'_singleton r
  | x :: xs, h => by
    by_cases hrx : r.start_idx ≤ x.start_idx
    · rw [insertAsc, if_pos hrx]
      exact List.Chain'.cons hrx h
    · rw [insertAsc, if_neg hrx]
      have hxr : x.start_idx ≤ r.start_idx := by omega
      have htail := chain'_insertAsc r xs h.tail
      rcases xs with _ | ⟨y, ys⟩
      · simpa [insertAsc] using List.chain'_pair.mpr hxr
      · by_cases hry : r.start_idx ≤ y.start_idx
        · rw [insertAsc, if_pos hry]
          rw [insertAsc, if_pos hry] at htail
          exact List.Chain'.cons hxr htail
        · rw [insertAsc, if_neg hry]
          rw [insertAsc, if_neg hry] at htail
          exact List.Chain'.cons (List.chain'_cons.mp h).1 htail

/-- The scanner's final sort is ascending in `start_idx`. -/
theorem chain'_sortAsc :
    ∀ l : List EditRegion,
      List.Chain' (fun a b => a.start_idx ≤ b.start_idx) (sortAsc l)
  | [] => List.chain'_nil
  | x :: xs => chain'_insertAsc x (List.foldr insertAsc [] xs) (chain'_sortAsc xs)

/-- Bounds for the block regions produced by the scanner. -/
theorem blockRegionsAux_bounds (t : Text) :
    ∀ (entries : List (Nat × Nat × String)) (rs : List EditRegion),
      (∀ e ∈ entries, ∃ c, (e.1, c) ∈ splitLines t ∧ c.length = e.2.1) →
      blockRegionsAux t entries = Except.ok rs →
      ∀ r ∈ rs, r.start_idx ≤ r.end_idx ∧ r.end_idx ≤ t.length
  | [], rs, _, hok => by
    cases hok
    intro r hr
    simp at hr
  | (s0, l0, n0) :: rest, rs, hsrc, hok => by
    rcases hfind : findEndAfter t (s0 + l0) with _ | ⟨es, en⟩
    · simp only [blockRegionsAux, hfind] at hok
      cases hok
    · simp only [blockRegionsAux, hfind] at hok
      by_cases hname : en = n0
      · rw [if_neg (by simp [hname])] at hok
        rcases hrest : blockRegionsAux t rest with _ | rs'
        · rw [hrest] at hok; cases hok
        · rw [hrest] at hok
          cases hok
          intro r hr
          rcases List.mem_cons.mp hr with rfl | htail
          · rcases findEndAfter_some hfind with ⟨c, hcmem, _, hge⟩
            have hle := splitLines_le t (es, c) hcmem
            simp only at hle ⊢
            constructor
            · exact hge
            · omega
          · exact blockRegionsAux_bounds t rest rs'
              (fun e he => hsrc e (List.mem_cons_of_mem _ he)) hrest r htail
      · rw [if_pos (by simpa using hname)] at hok
        cases hok

/-- Bounds for the single-line regions produced by the scanner. -/
theorem singleRegions_bounds (t : Text) :
    ∀ r ∈ singleRegions t, r.start_idx ≤ r.end_idx ∧ r.end_idx ≤ t.length := by
  intro r hr
  rcases List.mem_filterMap.mp hr with ⟨sc, hsc, hmatch⟩
  rcases hp : parseMarkerLine sc.2 with _ | ⟨k, n⟩
  · rw [hp] at hmatch; cases hmatch
  · cases k
    case beginM => rw [hp] at hmatch; cases hmatch
    case endM => rw [hp] at hmatch; cases hmatch
    case singleM =>
      rw [hp] at hmatch
      simp only [Option.some.injEq] at hmatch
      subst hmatch
      have hline := splitLines_le t sc hsc
      have hspan := replSpan_le ((t.drop (sc.1 + sc.2.length)).take 600)
      simp only [List.length_take, List.length_drop] at hspan
      simp only
      omega

/-- Bounds and sortedness for everything `find_regions` returns. -/
theorem find_regions_ok_facts (t : Text) (rs : List EditRegion)
    (h : find_regions t = Except.ok rs) :
    List.Chain' (fun a b => a.start_idx ≤ b.start_idx) rs ∧
      ∀ r ∈ rs, r.start_idx ≤ r.end_idx ∧ r.end_idx ≤ t.length := by
  rcases hraw : find_regions_raw t with e | raw
  · simp only [find_regions, hraw] at h
    cases h
  · simp only [find_regions, hraw] at h
    rcases hdup : checkDup raw [] with e | u
    · simp only [hdup] at h
      cases h
    · simp only [hdup] at h
      cases u
      have hrs : rs = sortAsc raw := by
        cases h
        rfl
      subst hrs
      refine ⟨chain'_sortAsc raw, ?_⟩
      intro r hr
      have hmem : r ∈ raw := mem_sortAsc.mp hr
      rcases hblocks : blockRegionsAux t (beginEntries t) with e | blocks
      · rw [find_regions_raw, hblocks] at hraw; cases hraw
      · rw [find_regions_raw, hblocks] at hraw
        have hsplit : raw = blocks ++ singleRegions t := by
          cases hraw
          rfl
        subst hsplit
        rcases List.mem_append.mp hmem with hb | hs
        · refine blockRegionsAux_bounds t (beginEntries t) blocks ?_ hblocks r hb
          intro e he
          rcases List.mem_filterMap.mp he with ⟨sc, hsc, hm⟩
          rcases hp : parseMarkerLine sc.2 with _ | ⟨k, n⟩
          · rw [hp] at hm; cases hm
          · cases k
            case singleM => rw [hp] at hm; cases hm
            case endM => rw [hp] at hm; cases hm
            case beginM =>
              rw [hp] at hm
              simp only [Option.some.injEq] at hm
              subst hm
              exact ⟨sc.2, by simpa using hsc, rfl⟩
        · exact singleRegions_bounds t r hs

/-! ## Claim theorems -/

/-- C3 (code divergence at the failing input): on
`"// @LLM_EDIT: T\n// note\nassign x = 1;"` the scanner's look-ahead, whose
regex is compiled with `re.DOTALL`, extends the single-line region's span to
offset 37 — the end of the template — although the line `assign x = 1;`
(starting at offset 24, the first following line that is neither blank nor a
comment) should, per the spec and the code's own comments, not be part of
the span.  The claimed rule would end the span at offset 24. -/
theorem c3_lookahead_overruns :
    find_regions tplC3 =
      Except.ok [⟨"T", RegionKind.single, 15, 37, "\n// note\nassign x = 1;".toList⟩] ∧
    (splitLines tplC3).get? 2 = some (24, "assign x = 1;".toList) ∧
    tplC3.length = 37 := by
  refine ⟨by rfl, by rfl, by rfl⟩

/-- C4 (code divergence at the failing input): on the spec's concrete
scenario the engine returns `"// @LLM_EDIT: T\nint x = 1;\n"`: the trailing
`END` line is *not* retained, because the DOTALL look-ahead consumes it as
part of the `???` placeholder region. -/
theorem c4_scenario_divergence :
    apply_llm_edits tplC4 spec0 none [("T", "int x = 1;")] = Except.ok outC4 ∧
    outC4 ≠ "// @LLM_EDIT: T\nint x = 1;\nEND".toList := by
  refine ⟨by rfl, by decide⟩

/-- C1 counterexample: on `tplC1` the only region `A` is absent from the
(empty, validated) patch set, yet the merged output does not keep its
original text `"\nfoo\n"` — the span is replaced by a blank line and the
body `foo` does not occur anywhere in the output. -/
theorem c1_counterexample :
    find_regions tplC1 = Except.ok [⟨"A", RegionKind.block, 20, 25, "\nfoo\n".toList⟩] ∧
    pyLookup [] "A" = none ∧
    apply_llm_edits tplC1 spec0 none [] = Except.ok outC1 ∧
    containsSub outC1 "foo".toList = false := by
  refine ⟨by rfl, by rfl, by rfl, by decide⟩

/-- C2 counterexample: in `tplC2x` the scanned spans are `[20, 43)` (block
`A`) and `[36, 40)` (single `T`), which overlap; the `END` marker line
occupies `[43, 61)`, outside both spans, yet the merged output (empty
validated patch set) no longer contains that line byte-for-byte. -/
theorem c2_counterexample :
    find_regions tplC2x =
      Except.ok [⟨"A", RegionKind.block, 20, 43, "\n// @LLM_EDIT: T\n\n\n\nxx\n".toList⟩,
                 ⟨"T", RegionKind.single, 36, 40, "\n\n\n\n".toList⟩] ∧
    occursAt "// @LLM_EDIT END A".toList tplC2x 43 = true ∧
    apply_llm_edits tplC2x spec0 none [] = Except.ok outC2x ∧
    containsSub outC2x "// @LLM_EDIT END A".toList = false := by
  refine ⟨by rfl, by rfl, by rfl, by decide⟩

/-- C5 counterexample: on `tplC5x` the scanner succeeds and returns the
block span `[20, 40)` and the single-line span `[36, 37)`, which overlap
(`20 ≤ 36` and `36 < 40`), refuting the non-overlap part of the claim. -/
theorem c5_counterexample :
    find_regions tplC5x =
      Except.ok [⟨"A", RegionKind.block, 20, 40, "\n// @LLM_EDIT: T\nzz\n".toList⟩,
                 ⟨"T", RegionKind.single, 36, 37, "\n".toList⟩] ∧
    20 ≤ 36 ∧ 36 < 40 := by
  refine ⟨by rfl, by decide, by decide⟩

/-- C8 counterexample: `tplC8x` contains `BEGIN X` and no `END` marker named
`X` (indeed no `END` marker at all), yet scanning fails with
`UnmatchedRegion "W"` — the error names the earlier unmatched `BEGIN W`,
not `X`. -/
theorem c8_counterexample :
    beginEntries tplC8x = [(0, 20, "W"), (21, 20, "X")] ∧
    (splitLines tplC8x).filterMap (fun sc =>
      match parseMarkerLine sc.2 with
      | some (MarkerKind.endM, n) => some n
      | _ => none) = [] ∧
    find_regions tplC8x = Except.error (EngineError.unmatchedRegion "W") ∧
    "W" ≠ "X" := by
  refine ⟨by rfl, by rfl, by rfl, by decide⟩

/-- C6: if scanning succeeds with a nonempty region list, the context builds,
every patch names a known region, and some patch's code contains a token of
the fixed denylist, then `apply_llm_edits` fails with a `ForbiddenToken`
error naming an offending region and token — no patch is merged (the call
returns an error, not a patched text). -/
theorem forbidden_token_rejects (t : Text) (spec : SpecInput) (clkO : Option ℚ)
    (patches : List (String × String)) (rs : List EditRegion) (ctx : CtxObject)
    (hrs : find_regions t = Except.ok rs)
    (hne : rs ≠ [])
    (hctx : build_context spec clkO = Except.ok ctx)
    (hknown : ∀ p ∈ patches, ∃ r ∈ rs, r.name = p.1)
    (hbad : ∃ p ∈ patches, ∃ tok ∈ forbidden_tokens, containsSub p.2.toList tok.toList = true) :
    ∃ n tok,
      apply_llm_edits t spec clkO patches = Except.error (EngineError.forbiddenToken n tok) ∧
      ∃ c, (n, c) ∈ patches ∧ tok ∈ forbidden_tokens ∧ containsSub c.toList tok.toList = true := by
  rcases checkForbidden_err patches hbad with ⟨n, tok, herr, hprops⟩
  have hnames : checkNames (rs.map (fun r => r.name)) patches = Except.ok () :=
    checkNames_ok _ patches (fun p hp => by
      rcases hknown p hp with ⟨r, hr, heq⟩
      exact List.mem_map.mpr ⟨r, hr, heq⟩)
  have hval : validate_patches rs patches = Except.error (EngineError.forbiddenToken n tok) := by
    unfold validate_patches
    rw [hnames]
    exact herr
  have hempty : rs.isEmpty = false := by
    cases rs
    · exact absurd rfl hne
    · rfl
  refine ⟨n, tok, ?_, hprops⟩
  unfold apply_llm_edits
  rw [hrs]
  simp only [hempty, Bool.false_eq_true, if_false, hctx, hval]

/-- C6 witness: on `tplC1` with the single patch `patchesC6` (containing
`$fopen`) the call fails with `ForbiddenToken "A" "$fopen"`-shaped error. -/
theorem c6_witness :
    ∃ n tok,
      apply_llm_edits tplC1 spec0 none patchesC6 = Except.error (EngineError.forbiddenToken n tok) ∧
      ∃ c, (n, c) ∈ patchesC6 ∧ tok ∈ forbidden_tokens ∧
        containsSub c.toList tok.toList = true :=
  forbidden_token_rejects tplC1 spec0 none patchesC6 rsC1 ctx0
    (by rfl) (by decide) (by rfl) (by decide) (by decide)

/-- C7: if the scanner's raw region list (before the duplicate check)
contains two regions sharing a name, then for a duplicated name `n` the
whole call fails with `DuplicateRegionName n` for *every* spec, clock
override and patch list — in particular the result never depends on the
provider's output, so the provider is never consulted. -/
theorem duplicate_region_aborts (t : Text) (rs : List EditRegion)
    (hraw : find_regions_raw t = Except.ok rs)
    (hdup : ¬ (rs.map (fun r => r.name)).Nodup) :
    ∃ n, 1 < (rs.map (fun r => r.name)).count n ∧
      ∀ (spec : SpecInput) (clkO : Option ℚ) (patches : List (String × String)),
        apply_llm_edits t spec clkO patches =
          Except.error (EngineError.duplicateRegionName n) := by
  rcases checkDup_err rs [] (Or.inl hdup) with ⟨n, herr, hcase⟩
  have hcount : 1 < (rs.map (fun r => r.name)).count n := by
    rcases hcase with h | ⟨h, _⟩
    · exact h
    · simp at h
  refine ⟨n, hcount, fun spec clkO patches => ?_⟩
  have hfr : find_regions t = Except.error (EngineError.duplicateRegionName n) := by
    simp only [find_regions, hraw, herr]
  simp only [apply_llm_edits, hfr]

/-- C7 witness: `tplC7w` holds two single-line markers named `A`; every call
aborts with `DuplicateRegionName "A"` whatever the patches. -/
theorem c7_witness :
    ∃ n, 1 < ((
      [⟨"A", RegionKind.single, 15, 16, "\n".toList⟩,
       ⟨"A", RegionKind.single, 34, 34, []⟩] : List EditRegion).map (fun r => r.name)).count n ∧
      ∀ (spec : SpecInput) (clkO : Option ℚ) (patches : List (String × String)),
        apply_llm_edits tplC7w spec clkO patches =
          Except.error (EngineError.duplicateRegionName n) :=
  duplicate_region_aborts tplC7w
    [⟨"A", RegionKind.single, 15, 16, "\n".toList⟩, ⟨"A", RegionKind.single, 34, 34, []⟩]
    (by rfl) (by decide)

/-- C8 (amended): if the template contains a `BEGIN X` line and no `END`
marker named `X` exists anywhere, scanning fails with an `UnmatchedRegion`
error — naming the name of some `BEGIN` marker of the template, which is the
first failing one and need not be `X` (see the counterexample). -/
theorem unmatched_begin_aborts (t : Text) (X : String) (s : Nat) (c : Text)
    (hline : (s, c) ∈ splitLines t)
    (hbegin : parseMarkerLine c = some (MarkerKind.beginM, X))
    (hnoend : ∀ sc ∈ splitLines t, parseMarkerLine sc.2 ≠ some (MarkerKind.endM, X)) :
    ∃ n, (∃ p l, (p, l, n) ∈ beginEntries t) ∧
      find_regions t = Except.error (EngineError.unmatchedRegion n) := by
  have hmem : (s, c.length, X) ∈ beginEntries t :=
    List.mem_filterMap.mpr ⟨(s, c), hline, by rw [hbegin]⟩
  rcases blockRegionsAux_err t X hnoend (beginEntries t) ⟨s, c.length, hmem⟩ with ⟨n, herr, hb⟩
  refine ⟨n, hb, ?_⟩
  unfold find_regions find_regions_raw
  rw [herr]

/-- C8 witness: on `tplC8w` (a lone `BEGIN X`, no `END`), scanning fails
with an `UnmatchedRegion` error naming a `BEGIN` marker of the template. -/
theorem c8_witness :
    ∃ n, (∃ p l, (p, l, n) ∈ beginEntries tplC8w) ∧
      find_regions tplC8w = Except.error (EngineError.unmatchedRegion n) :=
  unmatched_begin_aborts tplC8w "X" 0 "// @LLM_EDIT BEGIN X".toList
    (by decide) (by rfl) (by decide)

/-- C10: with no explicit clock override, a present `sim.clock_mhz` that is
zero or fails to convert to a number makes the context builder raise (an
uncaught `ValueError` or `ZeroDivisionError`), and — whenever the template
scans to a nonempty region list — the whole `apply_llm_edits` call aborts
with that error, for any patches. -/
theorem clock_field_abort (t : Text) (spec : SpecInput)
    (patches : List (String × String)) (rs : List EditRegion) (sm : SimCfg) (v : PyVal)
    (hrs : find_regions t = Except.ok rs) (hne : rs ≠ [])
    (hsim : spec.sim = some sm) (hmhz : sm.clock_mhz = some v)
    (hbad : pyFloatConv v = none ∨ pyFloatConv v = some (FloatLit.fin 0)) :
    ∃ e, build_context spec none = Except.error e ∧
      apply_llm_edits t spec none patches = Except.error e ∧
      (e = EngineError.floatConvError ∨ e = EngineError.zeroDivError) := by
  have hclk : ∃ e, clk_of spec none = Except.error e ∧
      (e = EngineError.floatConvError ∨ e = EngineError.zeroDivError) := by
    rcases hbad with hb | hb
    · refine ⟨EngineError.floatConvError, ?_, Or.inl rfl⟩
      simp only [clk_of, simClockMhz, hsim, hmhz, hb]
    · refine ⟨EngineError.zeroDivError, ?_, Or.inr rfl⟩
      simp only [clk_of, simClockMhz, hsim, hmhz, hb, if_pos rfl, if_true]
  rcases hclk with ⟨e, herr, hkind⟩
  have hbc : build_context spec none = Except.error e := by
    simp only [build_context, herr]
  have hempty : rs.isEmpty = false := by
    cases rs
    · exact absurd rfl hne
    · rfl
  refine ⟨e, hbc, ?_, hkind⟩
  unfold apply_llm_edits
  rw [hrs]
  simp only [hempty, Bool.false_eq_true, if_false, hbc]

/-- C10 witness: `specW10` has `sim.clock_mhz = "fast"`; on `tplC1` the call
aborts with the conversion error. -/
theorem c10_witness :
    ∃ e, build_context specW10 none = Except.error e ∧
      apply_llm_edits tplC1 specW10 none [] = Except.error e ∧
      (e = EngineError.floatConvError ∨ e = EngineError.zeroDivError) :=
  clock_field_abort tplC1 specW10 [] rsC1 ⟨some (PyVal.str "fast"), none⟩ (PyVal.str "fast")
    (by rfl) (by decide) (by rfl) (by rfl) (Or.inl (by rfl))

/-- C5 (amended): whatever `find_regions` returns is sorted ascending by
`start_idx` and every region satisfies `start ≤ end ≤ len(text)`.  The
claim's remaining clause — that spans never overlap — is false (see the
counterexample): a single-line marker inside a block region yields
overlapping spans. -/
theorem regions_sorted_and_bounded (t : Text) (rs : List EditRegion)
    (h : find_regions t = Except.ok rs) :
    List.Chain' (fun a b => a.start_idx ≤ b.start_idx) rs ∧
      ∀ r ∈ rs, r.start_idx ≤ r.end_idx ∧ r.end_idx ≤ t.length :=
  find_regions_ok_facts t rs h

/-- C5 witness: the scan of `tplW2` is sorted and in bounds. -/
theorem c5_witness :
    find_regions tplW2 = Except.ok rsW2 ∧
      (List.Chain' (fun a b => a.start_idx ≤ b.start_idx) rsW2 ∧
        ∀ r ∈ rsW2, r.start_idx ≤ r.end_idx ∧ r.end_idx ≤ tplW2.length) :=
  ⟨by rfl, regions_sorted_and_bounded tplW2 rsW2 (by rfl)⟩

/-- Inserting a fresh key appends the pair. -/
theorem dictInsert_mem_self (d : List (String × Int)) (k : String) (v : Int)
    (h : k ∉ d.map Prod.fst) : (k, v) ∈ dictInsert d k v := by
  unfold dictInsert
  rw [if_neg]
  · simp
  · intro hany
    rcases List.any_eq_true.mp hany with ⟨p, hp, heq⟩
    exact h (List.mem_map.mpr ⟨p, hp, (by simpa using heq)⟩)

/-- Insertion under a different key preserves a pair. -/
theorem dictInsert_mem_preserve {d : List (String × Int)} {key : String} {val : Int}
    (k' : String) (v' : Int) (hmem : (key, val) ∈ d) (hne : key ≠ k') :
    (key, val) ∈ dictInsert d k' v' := by
  unfold dictInsert
  split
  · refine List.mem_map.mpr ⟨(key, val), hmem, ?_⟩
    rw [if_neg (by simpa using hne)]
  · exact List.mem_append_left _ hmem

/-- Insertion cannot introduce keys other than its own. -/
theorem dictInsert_keys {d : List (String × Int)} {key k' : String} {v' : Int}
    (h : key ∉ d.map Prod.fst) (hne : key ≠ k') :
    key ∉ (dictInsert d k' v').map Prod.fst := by
  unfold dictInsert
  split
  · intro hmem
    rcases List.mem_map.mp hmem with ⟨p, hp, hfst⟩
    rcases List.mem_map.mp hp with ⟨p0, hp0, heqp⟩
    by_cases hk : p0.1 = k'
    · rw [if_pos hk] at heqp
      subst heqp
      exact hne hfst.symm
    · rw [if_neg hk] at heqp
      subst heqp
      exact h (List.mem_map.mpr ⟨p0, hp0, hfst⟩)
  · intro hmem
    rcases List.mem_map.mp hmem with ⟨p, hp, hfst⟩
    rcases List.mem_append.mp hp with hleft | hright
    · exact h (List.mem_map.mpr ⟨p, hleft, hfst⟩)
    · rcases List.mem_singleton.mp hright with rfl
      exact hne hfst.symm

/-- Unfolding `convKeys` over the head entry. -/
theorem convKeys_cons (k0 : String) (v0 : PyVal) (rest : List (String × PyVal)) :
    convKeys ((k0, v0) :: rest) =
      (match pyFloatConv v0 with
       | some (FloatLit.fin _) => cycKey k0 :: convKeys rest
       | _ => convKeys rest) := by
  unfold convKeys
  rw [List.filterMap_cons]
  rcases pyFloatConv v0 with _ | f
  · rfl
  · cases f <;> rfl

/-- A pair survives the timing fold if its key is not converted again. -/
theorem timingStep_fold_preserve (c : ℚ) {key : String} {val : Int} :
    ∀ (entries : List (String × PyVal)) (d : List (String × Int)),
      (key, val) ∈ d → key ∉ convKeys entries →
      (key, val) ∈ entries.foldl (timingStep (FloatLit.fin c)) d
  | [], _, hmem, _ => hmem
  | (k0, v0) :: rest, d, hmem, hkeys => by
    rw [List.foldl_cons]
    rcases hconv : pyFloatConv v0 with _ | f
    · have hstep : timingStep (FloatLit.fin c) d (k0, v0) = d := by
        simp [timingStep, hconv]
      rw [hstep]
      refine timingStep_fold_preserve c rest d hmem ?_
      intro hk
      apply hkeys
      rw [convKeys_cons, hconv]
      exact hk
    · cases f with
      | fin ns =>
        have hkr : key ∉ convKeys rest := by
          intro hk
          apply hkeys
          rw [convKeys_cons, hconv]
          exact List.mem_cons_of_mem _ hk
        have hne : key ≠ cycKey k0 := by
          intro heq
          apply hkeys
          rw [convKeys_cons, hconv]
          exact heq ▸ List.mem_cons_self _ _
        by_cases hc0 : c = 0
        · have hstep : timingStep (FloatLit.fin c) d (k0, v0) = d := by
            simp [timingStep, hconv, hc0]
          rw [hstep]
          exact timingStep_fold_preserve c rest d hmem hkr
        · have hstep : timingStep (FloatLit.fin c) d (k0, v0) =
              dictInsert d (cycKey k0) ⌈ns / c⌉ := by
            simp [timingStep, hconv, hc0]
          rw [hstep]
          exact timingStep_fold_preserve c rest _
            (dictInsert_mem_preserve _ _ hmem hne) hkr
      | inf =>
        have hstep : timingStep (FloatLit.fin c) d (k0, v0) = d := by
          simp [timingStep, hconv]
        rw [hstep]
        refine timingStep_fold_preserve c rest d hmem ?_
        intro hk
        apply hkeys
        rw [convKeys_cons, hconv]
        exact hk
      | neginf =>
        have hstep : timingStep (FloatLit.fin c) d (k0, v0) = d := by
          simp [timingStep, hconv]
        rw [hstep]
        refine timingStep_fold_preserve c rest d hmem ?_
        intro hk
        apply hkeys
        rw [convKeys_cons, hconv]
        exact hk
      | nan =>
        have hstep : timingStep (FloatLit.fin c) d (k0, v0) = d := by
          simp [timingStep, hconv]
        rw [hstep]
        refine timingStep_fold_preserve c rest d hmem ?_
        intro hk
        apply hkeys
        rw [convKeys_cons, hconv]
        exact hk

/-- Every finitely-converting timing entry contributes its ceiling cycle
count to the fold, provided the converted keys are distinct. -/
theorem timingCycles_mem (c : ℚ) (hc : ¬ c = 0) :
    ∀ (entries : List (String × PyVal)) (d : List (String × Int))
      (k : String) (v : PyVal) (q : ℚ),
      (k, v) ∈ entries → pyFloatConv v = some (FloatLit.fin q) →
      (convKeys entries).Nodup → cycKey k ∉ d.map Prod.fst →
      (cycKey k, ⌈q / c⌉) ∈ entries.foldl (timingStep (FloatLit.fin c)) d
  | [], _, k, v, q, hmem, _, _, _ => absurd hmem (List.not_mem_nil _)
  | (k0, v0) :: rest, d, k, v, q, hmem, hq, hnd, hdk => by
    rw [List.foldl_cons]
    rcases List.mem_cons.mp hmem with heq | htail
    · injection heq with h1 h2
      subst h1
      subst h2
      have hstep : timingStep (FloatLit.fin c) d (k, v) =
          dictInsert d (cycKey k) ⌈q / c⌉ := by
        simp [timingStep, hq, hc]
      rw [hstep]
      have hnotin : cycKey k ∉ convKeys rest := by
        rw [convKeys_cons, hq] at hnd
        exact (List.nodup_cons.mp hnd).1
      exact timingStep_fold_preserve c rest _
        (dictInsert_mem_self d (cycKey k) ⌈q / c⌉ hdk) hnotin
    · have hkmem : cycKey k ∈ convKeys rest := by
        unfold convKeys
        refine List.mem_filterMap.mpr ⟨(k, v), htail, ?_⟩
        rw [hq]
      rcases hconv : pyFloatConv v0 with _ | f
      · have hstep : timingStep (FloatLit.fin c) d (k0, v0) = d := by
          simp [timingStep, hconv]
        rw [hstep]
        refine timingCycles_mem c hc rest d k v q htail hq ?_ hdk
        rw [convKeys_cons, hconv] at hnd
        exact hnd
      · cases f with
        | fin ns =>
          rw [convKeys_cons, hconv] at hnd
          have hne : cycKey k ≠ cycKey k0 := by
            intro heq
            exact (List.nodup_cons.mp hnd).1 (heq ▸ hkmem)
          by_cases hc0 : c = 0
          · exact absurd hc0 hc
          · have hstep : timingStep (FloatLit.fin c) d (k0, v0) =
                dictInsert d (cycKey k0) ⌈ns / c⌉ := by
              simp [timingStep, hconv, hc0]
            rw [hstep]
            exact timingCycles_mem c hc rest _ k v q htail hq
              (List.nodup_cons.mp hnd).2 (dictInsert_keys hdk hne)
        | inf =>
          have hstep : timingStep (FloatLit.fin c) d (k0, v0) = d := by
            simp [timingStep, hconv]
          rw [hstep]
          refine timingCycles_mem c hc rest d k v q htail hq ?_ hdk
          rw [convKeys_cons, hconv] at hnd
          exact hnd
        | neginf =>
          have hstep : timingStep (FloatLit.fin c) d (k0, v0) = d := by
            simp [timingStep, hconv]
          rw [hstep]
          refine timingCycles_mem c hc rest d k v q htail hq ?_ hdk
          rw [convKeys_cons, hconv] at hnd
          exact hnd
        | nan =>
          have hstep : timingStep (FloatLit.fin c) d (k0, v0) = d := by
            simp [timingStep, hconv]
          rw [hstep]
          refine timingCycles_mem c hc rest d k v q htail hq ?_ hdk
          rw [convKeys_cons, hconv] at hnd
          exact hnd

/-- Inversion of a successful context build. -/
theorem build_context_ok (spec : SpecInput) (clkO : Option ℚ) (ctx : CtxObject)
    (h : build_context spec clkO = Except.ok ctx) :
    clk_of spec clkO = Except.ok ctx.clk_ns ∧
      ctx.timing_cycles = timingCyclesOf ctx.clk_ns (spec.timing.getD []) := by
  rcases hclk : clk_of spec clkO with e | clk
  · simp only [build_context, hclk] at h
    cases h
  · simp only [build_context, hclk] at h
    cases h
    exact ⟨rfl, rfl⟩

/-- C9: the context builder sends every timing entry whose value converts to
a finite number `q` to the cycle count `⌈q / c⌉` under key
`k.replace("_ns", "_cycles")`, where the clock period `c` is the explicit
override when supplied, else `1000 / mhz` for a finite nonzero converted
`sim.clock_mhz`, else `10` ns (the 100 MHz default) when the field is
absent.  (Hypotheses: the clock period is a nonzero finite number, and the
converted timing keys are distinct, as they are in any well-formed spec.) -/
theorem timing_cycles_ceiling (spec : SpecInput) (clkO : Option ℚ) (ctx : CtxObject)
    (k : String) (v : PyVal) (q c : ℚ)
    (hctx : build_context spec clkO = Except.ok ctx)
    (hclk : ctx.clk_ns = FloatLit.fin c) (hc : ¬ c = 0)
    (hmem : (k, v) ∈ spec.timing.getD [])
    (hq : pyFloatConv v = some (FloatLit.fin q))
    (hkeys : (convKeys (spec.timing.getD [])).Nodup) :
    (cycKey k, ⌈q / c⌉) ∈ ctx.timing_cycles ∧
    (∀ cns, clkO = some cns → c = cns) ∧
    (clkO = none → simClockMhz spec = none → c = 1000 / 100) ∧
    (clkO = none → ∀ w, simClockMhz spec = some w →
      ∃ m, pyFloatConv w = some (FloatLit.fin m) ∧ m ≠ 0 ∧ c = 1000 / m) := by
  rcases build_context_ok spec clkO ctx hctx with ⟨hclkof, htc⟩
  rw [hclk] at hclkof htc
  refine ⟨?_, ?_, ?_, ?_⟩
  · rw [htc]
    exact timingCycles_mem c hc (spec.timing.getD []) [] k v q hmem hq hkeys (by simp)
  · intro cns hcns
    rw [hcns] at hclkof
    simp only [clk_of] at hclkof
    cases hclkof
    rfl
  · intro hnone hmhz
    rw [hnone] at hclkof
    simp only [clk_of, hmhz] at hclkof
    cases hclkof
    rfl
  · intro hnone w hw
    rw [hnone] at hclkof
    simp only [clk_of, hw] at hclkof
    rcases hcw : pyFloatConv w with _ | f
    · simp only [hcw] at hclkof
      cases hclkof
    · cases f with
      | fin m =>
        simp only [hcw] at hclkof
        by_cases hm : m = 0
        · rw [if_pos hm] at hclkof
          cases hclkof
        · rw [if_neg hm] at hclkof
          refine ⟨m, rfl, hm, ?_⟩
          injection hclkof with h1
          injection h1 with h2
          exact h2.symm
      | inf =>
        simp only [hcw] at hclkof
        injection hclkof with h1
        injection h1 with h2
        exact absurd h2.symm (by simpa using hc)
      | neginf =>
        simp only [hcw] at hclkof
        injection hclkof with h1
        injection h1 with h2
        exact absurd h2.symm (by simpa using hc)
      | nan =>
        simp only [hcw] at hclkof
        injection hclkof with h1
        cases h1

/-- C9 witness: a 6.1 ns timing entry with a 2.0 ns clock period contributes
4 cycles — `ceil(6.1 / 2.0) = ceil(3.05) = 4`, never 3. -/
theorem c9_witness :
    ("t_aa_cycles", ⌈(61 : ℚ) / 10 / 2⌉) ∈ ctxW9.timing_cycles ∧
      ⌈(61 : ℚ) / 10 / 2⌉ = 4 ∧ ⌈(61 : ℚ) / 10 / 2⌉ ≠ 3 := by
  refine ⟨?_, ?_, ?_⟩
  · have h := timing_cycles_ceiling specW9 (some 2) ctxW9 "t_aa_ns" (PyVal.num (61 / 10))
      (61 / 10) 2 (by rfl) (by rfl) (by norm_num)
      (List.mem_singleton.mpr rfl) (by rfl) (by decide)
    have hk : cycKey "t_aa_ns" = "t_aa_cycles" := by rfl
    rw [hk] at h
    exact h.1
  · refine Int.ceil_eq_iff.mpr ⟨by norm_num, by norm_num⟩
  · have : ⌈(61 : ℚ) / 10 / 2⌉ = 4 := Int.ceil_eq_iff.mpr ⟨by norm_num, by norm_num⟩
    rw [this]
    decide

/-- One edit, written with the replacement piece factored out. -/
theorem applyOne_eq (patches : List (String × String)) (out : Text) (r : EditRegion) :
    applyOne patches out r =
      out.take r.start_idx ++ pieceFor patches r ++ out.drop r.end_idx := by
  simp [applyOne, pieceFor, List.cons_append, List.append_assoc]

/-- In a strictly ascending chain, the head is below every later element. -/
theorem chain'_lt_all :
    ∀ {x : EditRegion} {xs : List EditRegion},
      List.Chain' (fun a b => a.start_idx < b.start_idx) (x :: xs) →
      ∀ y ∈ xs, x.start_idx < y.start_idx
  | _, [], _, y, hy => absurd hy (List.not_mem_nil _)
  | x, z :: zs, h, y, hy => by
    have hxz := (List.chain'_cons.mp h).1
    rcases List.mem_cons.mp hy with rfl | hmem
    · exact hxz
    · exact Nat.lt_trans hxz (chain'_lt_all (List.chain'_cons.mp h).2 y hmem)

/-- Descending insertion below every element appends at the end. -/
theorem insertDesc_all_lt (r : EditRegion) :
    ∀ l : List EditRegion, (∀ x ∈ l, r.start_idx < x.start_idx) →
      insertDesc r l = l ++ [r]
  | [], _ => rfl
  | x :: xs, h => by
    rw [insertDesc, if_neg (by have := h x (List.mem_cons_self _ _); omega)]
    rw [insertDesc_all_lt r xs (fun y hy => h y (List.mem_cons_of_mem _ hy))]
    rfl

/-- The descending re-sort of a strictly ascending list is its reverse. -/
theorem sortDesc_eq_reverse :
    ∀ l : List EditRegion,
      List.Chain' (fun a b => a.start_idx < b.start_idx) l → sortDesc l = l.reverse
  | [], _ => rfl
  | x :: xs, h => by
    show insertDesc x (sortDesc xs) = (x :: xs).reverse
    rw [sortDesc_eq_reverse xs h.tail]
    rw [insertDesc_all_lt x xs.reverse
      (fun y hy => chain'_lt_all h y (List.mem_reverse.mp hy))]
    rw [List.reverse_cons]

/-- Taking up to the first region's start from a merge is taking from the
original text. -/
theorem mergeFrom_take (text : Text) (patches : List (String × String)) :
    ∀ (tail : List EditRegion) (n : Nat), n ≤ text.length →
      (∀ r2 ∈ tail.head?, n ≤ r2.start_idx) →
      (mergeFrom text patches 0 tail).take n = text.take n
  | [], n, _, _ => by simp [mergeFrom]
  | r2 :: rest, n, hn, hhead => by
    have hr2 : n ≤ r2.start_idx := hhead r2 rfl
    show ((text.drop 0).take (r2.start_idx - 0) ++ pieceFor patches r2 ++
      mergeFrom text patches r2.end_idx rest).take n = text.take n
    rw [List.append_assoc, List.take_append_of_le_length]
    · simp only [List.drop_zero, Nat.sub_zero, List.take_take]
      rw [Nat.min_eq_left hr2]
    · simp only [List.drop_zero, Nat.sub_zero, List.length_take]
      omega

/-- Dropping from the first region's end onwards re-bases the merge. -/
theorem mergeFrom_drop (text : Text) (patches : List (String × String)) :
    ∀ (tail : List EditRegion) (e : Nat), e ≤ text.length →
      (∀ r2 ∈ tail.head?, e ≤ r2.start_idx) →
      (mergeFrom text patches 0 tail).drop e = mergeFrom text patches e tail
  | [], e, _, _ => by simp [mergeFrom]
  | r2 :: rest, e, he, hhead => by
    have hr2 : e ≤ r2.start_idx := hhead r2 rfl
    show ((text.drop 0).take (r2.start_idx - 0) ++ pieceFor patches r2 ++
      mergeFrom text patches r2.end_idx rest).drop e =
      mergeFrom text patches e (r2 :: rest)
    rw [List.append_assoc, List.drop_append_of_le_length]
    · simp only [List.drop_zero, Nat.sub_zero]
      rw [List.drop_take]
      show (text.drop e).take (r2.start_idx - e) ++
        (pieceFor patches r2 ++ mergeFrom text patches r2.end_idx rest) =
        mergeFrom text patches e (r2 :: rest)
      rw [← List.append_assoc]
      rfl
    · simp only [List.drop_zero, Nat.sub_zero, List.length_take]
      omega

/-- Applying the edits right-to-left realises the spec-side merge, provided
the regions are in bounds and their spans are disjoint. -/
theorem foldr_applyOne_eq (patches : List (String × String)) :
    ∀ (rs : List EditRegion) (text : Text),
      (∀ r ∈ rs, r.start_idx ≤ r.end_idx ∧ r.end_idx ≤ text.length) →
      List.Chain' (fun a b => a.end_idx ≤ b.start_idx) rs →
      rs.foldr (fun r out => applyOne patches out r) text = mergeFrom text patches 0 rs
  | [], text, _, _ => by simp [mergeFrom]
  | r :: tail, text, hb, hchain => by
    rw [List.foldr_cons]
    rw [foldr_applyOne_eq patches tail text
      (fun x hx => hb x (List.mem_cons_of_mem _ hx)) hchain.tail]
    rw [applyOne_eq]
    have hbr := hb r (List.mem_cons_self _ _)
    have hhead : ∀ r2 ∈ tail.head?, r.end_idx ≤ r2.start_idx := by
      intro r2 h2
      rcases tail with _ | ⟨z, zs⟩
      · cases h2
      · cases h2
        exact (List.chain'_cons.mp hchain).1
    rw [mergeFrom_take text patches tail r.start_idx (by omega)
      (fun r2 h2 => Nat.le_trans (by omega) (hhead r2 h2))]
    rw [mergeFrom_drop text patches tail r.end_idx (by omega) hhead]
    show text.take r.start_idx ++ pieceFor patches r ++ mergeFrom text patches r.end_idx tail =
      (text.drop 0).take (r.start_idx - 0) ++ pieceFor patches r ++
        mergeFrom text patches r.end_idx tail
    simp

/-- Embedded `_apply_patches` equals the spec-side merge on disjoint, in-bounds,
strictly ascending regions. -/
theorem apply_patches_eq (text : Text) (rs : List EditRegion)
    (patches : List (String × String))
    (hb : ∀ r ∈ rs, r.start_idx ≤ r.end_idx ∧ r.end_idx ≤ text.length)
    (hchain : List.Chain' (fun a b => a.end_idx ≤ b.start_idx ∧ a.start_idx < b.start_idx) rs) :
    apply_patches text rs patches = mergeFrom text patches 0 rs := by
  unfold apply_patches
  rw [sortDesc_eq_reverse rs (hchain.imp (fun _ _ h => h.2))]
  rw [List.foldl_reverse]
  exact foldr_applyOne_eq patches rs text hb (hchain.imp (fun _ _ h => h.1))

/-- Inversion of a successful `apply_llm_edits` into the spec-side merge. -/
theorem apply_ok_frame (t : Text) (spec : SpecInput) (clkO : Option ℚ)
    (patches : List (String × String)) (rs : List EditRegion) (out : Text)
    (hrs : find_regions t = Except.ok rs)
    (hsep : List.Chain' (fun a b => a.end_idx ≤ b.start_idx ∧ a.start_idx < b.start_idx) rs)
    (hout : apply_llm_edits t spec clkO patches = Except.ok out) :
    out = mergeFrom t patches 0 rs := by
  have hb := (find_regions_ok_facts t rs hrs).2
  rcases rs with _ | ⟨r0, rest⟩
  · simp only [apply_llm_edits, hrs, List.isEmpty_nil, if_true] at hout
    cases hout
    simp [mergeFrom]
  · simp only [apply_llm_edits, hrs, List.isEmpty_cons, Bool.false_eq_true, if_false] at hout
    rcases hbc : build_context spec clkO with e | ctx
    · simp only [hbc] at hout
      cases hout
    · simp only [hbc] at hout
      rcases hvp : validate_patches (r0 :: rest) patches with e | u
      · simp only [hvp] at hout
        cases hout
      · simp only [hvp] at hout
        cases u
        cases hout
        exact apply_patches_eq t (r0 :: rest) patches hb hsep

/-- C2 (amended): whenever the scanned regions' spans are pairwise disjoint
(in ascending order each region ends before the next starts — which the
counterexample shows can fail), a successful `apply_llm_edits` returns
exactly the disjoint merge `mergeFrom`: the gaps between and around the
spans are literal slices of the input template, so every character outside
the spans is preserved byte-for-byte. -/
theorem merged_text_frame (t : Text) (spec : SpecInput) (clkO : Option ℚ)
    (patches : List (String × String)) (rs : List EditRegion) (out : Text)
    (hrs : find_regions t = Except.ok rs)
    (hsep : List.Chain' (fun a b => a.end_idx ≤ b.start_idx ∧ a.start_idx < b.start_idx) rs)
    (hout : apply_llm_edits t spec clkO patches = Except.ok out) :
    out = mergeFrom t patches 0 rs :=
  apply_ok_frame t spec clkO patches rs out hrs hsep hout

/-- C2 witness: patching only region `A` of `tplW2` yields the merge in
which the text outside the two spans is the original text. -/
theorem c2_witness :
    apply_llm_edits tplW2 spec0 none [("A", "new")] = Except.ok outW2 ∧
      outW2 = mergeFrom tplW2 [("A", "new")] 0 rsW2 :=
  ⟨by rfl,
    merged_text_frame tplW2 spec0 none [("A", "new")] rsW2 outW2 (by rfl)
      (List.chain'_pair.mpr (by decide)) (by rfl)⟩

/-- C1 (amended): a region absent from the patch set is *not* kept as its
`original_text` (see the counterexample): `_apply_patches` looks the region
up with default `""`, normalises it and re-inserts it between two newlines,
so in the (disjoint-spans) merge the region's span is replaced by a single
blank line — the two characters `"\n\n"` — regardless of its original
content.  Patched regions get their normalised patch; partial fulfilment is
not an error. -/
theorem unpatched_region_blanked (t : Text) (spec : SpecInput) (clkO : Option ℚ)
    (patches : List (String × String)) (rs : List EditRegion) (out : Text)
    (hrs : find_regions t = Except.ok rs)
    (hsep : List.Chain' (fun a b => a.end_idx ≤ b.start_idx ∧ a.start_idx < b.start_idx) rs)
    (hout : apply_llm_edits t spec clkO patches = Except.ok out) :
    out = mergeFrom t patches 0 rs ∧
      ∀ r ∈ rs, pyLookup patches r.name = none →
        pieceFor patches r = ['\n', '\n'] := by
  refine ⟨apply_ok_frame t spec clkO patches rs out hrs hsep hout, ?_⟩
  intro r _ hlook
  simp [pieceFor, hlook, normalize_code, pyStrip, pyRstrip]

/-- C1 witness: on `tplW2` with only `A` patched, region `B`'s span becomes
a blank line in the merged output instead of its original `"\nkeep\n"`. -/
theorem c1_witness :
    outW2 = mergeFrom tplW2 [("A", "new")] 0 rsW2 ∧
      pieceFor [("A", "new")] ⟨"B", RegionKind.block, 64, 70, "\nkeep\n".toList⟩ =
        ['\n', '\n'] := by
  have h := unpatched_region_blanked tplW2 spec0 none [("A", "new")] rsW2 outW2 (by rfl)
    (List.chain'_pair.mpr (by decide)) (by rfl)
  exact ⟨h.1, h.2 ⟨"B", RegionKind.block, 64, 70, "\nkeep\n".toList⟩ (by decide) (by rfl)⟩

end GuardedEdit
